import Mathlib

/-!
Verification of the calendar merger (`src/index.js`).

The script fetches several iCalendar sources, expands recurring events over a
one-year window, adjusts each occurrence's start/end with per-field timezone
data, concatenates everything into one calendar and uploads it under a
URL-safe key.  This file gives a shallow embedding of that pipeline and
proves/refutes the frozen claims about it.

Modelling conventions:
* Instants are integers: milliseconds since the Unix epoch (JS `Date.getTime`).
* A timezone is modelled as a fixed UTC offset in milliseconds (the IANA zone
  string of the source; daylight-saving shifts are outside the model).
* A parsed recurrence rule (the rrule library's `RRule` value) is abstracted
  by the function `genDates`, which, given the `dtstart` anchor, returns the
  ordered list of start instants the rule generates.  The library method
  `rule.between(after, before)` (default `inc = false`) keeps exactly the
  generated instants strictly between the bounds: the library moves both
  bounds one millisecond inward before iterating.
* `moment.tz(date, zone)` applied to a JS `Date` — an unambiguous absolute
  instant — keeps the instant and only changes the display zone, so its
  embedding `adjustDate` returns the instant unchanged.
* Fallible stages (`RRule.parseString`, fetching, ICS parsing) are embedded
  with `Except`; the script's `try`/`catch` around the whole run becomes a
  `match` that yields no publish call on `error`.
-/

/-- Milliseconds since the Unix epoch, the value of a JS `Date`. -/
abbrev Instant := Int

/-- A timezone, modelled as a fixed UTC offset in milliseconds
(e.g. `3600000` for UTC+1).  DST transitions are outside the model. -/
abbrev Zone := Int

/-- The error thrown when recurrence-rule text cannot be parsed
(`RRule.parseString` throwing in `expandRecurringEvent`). -/
structure RecurrenceRuleError where
  message : String
deriving DecidableEq

/-- A parsed recurrence rule (the rrule library's `RRule` object).  The
generation algorithm itself is external library code; it is abstracted as
`genDates`, mapping the `dtstart` anchor to the ordered list of all start
instants the rule generates. -/
structure ParsedRule where
  genDates : Instant → List Instant

/-- One raw event as produced by `nodeIcal` parsing: the per-component record
consumed by `mergeCalendars` (fields `type`, `summary`, `description`,
`location`, `start`, `end`, `rrule`, and the `tz` attached to the start/end
dates).  `rrule` is `none` for a non-recurring event; for a recurring one it
holds the result of `RRule.parseString(event.rrule.toString())`. -/
structure RawEvent where
  uid : String
  type : String
  summary : String
  description : String
  location : String
  start : Instant
  «end» : Instant
  rrule : Option (Except RecurrenceRuleError ParsedRule)
  startTz : Option Zone
  endTz : Option Zone

/-- One event written into the output calendar by `cal.createEvent({start,
end, summary, description, location})`. -/
structure Occurrence where
  start : Instant
  «end» : Instant
  summary : String
  description : String
  location : String
deriving DecidableEq

/-- The configuration constants of the script (`calendarName`,
`calendarTimezone`). -/
structure Config where
  calendarName : String
  calendarTimezone : Zone

/-- The merged output calendar built by `ical({ name: calendarName })` and
filled by `cal.createEvent` calls, in insertion order. -/
structure MergedCalendar where
  name : String
  occurrences : List Occurrence
deriving DecidableEq

/-- The fatal errors of a run: a source HTTP failure, malformed ICS text, or
an unparseable recurrence rule. -/
inductive RunError where
  | fetchError (url : String)
  | parseError (url : String)
  | recurrenceRuleError (e : RecurrenceRuleError)
deriving DecidableEq

/-- One `PutObjectCommand` sent to the storage sink. -/
structure PutCall where
  bucket : String
  key : String
  body : MergedCalendar
  acl : String
  contentType : String
deriving DecidableEq

/-- Milliseconds in one day. -/
def msPerDay : Int := 86400000

/-- Gregorian leap-year test. -/
def isLeapYear (y : Int) : Bool :=
  (y % 4 == 0 && y % 100 != 0) || y % 400 == 0

/-- Number of days in month `m` of year `y`. -/
def daysInMonth (y m : Int) : Int :=
  if m = 2 then (if isLeapYear y then 29 else 28)
  else if m = 4 ∨ m = 6 ∨ m = 9 ∨ m = 11 then 30
  else 31

/-- Days since 1970-01-01 of the civil date `(y, m, d)` (proleptic Gregorian
calendar; Hinnant's `days_from_civil`). -/
def daysFromCivil (y m d : Int) : Int :=
  let y' := if m ≤ 2 then y - 1 else y
  let era := Int.fdiv y' 400
  let yoe := y' - era * 400
  let mp := if m > 2 then m - 3 else m + 9
  let doy := (153 * mp + 2) / 5 + d - 1
  let doe := yoe * 365 + yoe / 4 - yoe / 100 + doy
  era * 146097 + doe - 719468

/-- Civil date `(y, m, d)` of a day count since 1970-01-01 (Hinnant's
`civil_from_days`). -/
def civilFromDays (z : Int) : Int × Int × Int :=
  let z' := z + 719468
  let era := Int.fdiv z' 146097
  let doe := z' - era * 146097
  let yoe := (doe - doe / 1460 + doe / 36524 - doe / 146096) / 365
  let y := yoe + era * 400
  let doy := doe - (365 * yoe + yoe / 4 - yoe / 100)
  let mp := (5 * doy + 2) / 153
  let d := doy - (153 * mp + 2) / 5 + 1
  let m := if mp < 10 then mp + 3 else mp - 9
  (if m ≤ 2 then y + 1 else y, m, d)

/-- The local civil day (as a day count since 1970-01-01) that instant `t`
falls on in zone `tz`. -/
def localDay (tz : Zone) (t : Instant) : Int :=
  (t + tz) / msPerDay

/-- The millisecond-of-day of instant `t` in zone `tz`. -/
def msOfDay (tz : Zone) (t : Instant) : Int :=
  (t + tz) % msPerDay

/-- Embeds `moment(t).tz(tz).startOf("day")`: the first instant of the local day of
`t` in zone `tz`. -/
def startOfDay (tz : Zone) (t : Instant) : Instant :=
  localDay tz t * msPerDay - tz

/-- Embeds `moment(t).tz(tz).endOf("day")`: the last millisecond of the local day of
`t` in zone `tz` (local 23:59:59.999). -/
def endOfDay (tz : Zone) (t : Instant) : Instant :=
  startOfDay tz t + msPerDay - 1

/-- Civil-calendar successor year of a day count: same month and day one year
later, with the day-of-month clamped (Feb 29 becomes Feb 28), which is
moment's `add(1, "year")` on the date part. -/
def addOneYearDay (day : Int) : Int :=
  match civilFromDays day with
  | (y, m, d) => daysFromCivil (y + 1) m (min d (daysInMonth (y + 1) m))

/-- Embeds `moment(t).tz(tz).add(1, "year")`: keep the local time-of-day, move the
civil date one year forward (clamping Feb 29). -/
def addOneYear (tz : Zone) (t : Instant) : Instant :=
  addOneYearDay (localDay tz t) * msPerDay + msOfDay tz t - tz

/-- The window start of a run invoked at instant `now`:
`moment().tz(calendarTimezone).startOf("day").toDate()` (src/index.js:91). -/
def computeWindowStart (tz : Zone) (now : Instant) : Instant :=
  startOfDay tz now

/-- The window end of a run invoked at instant `now`:
`moment().tz(calendarTimezone).add(1, "year").endOf("day").toDate()`
(src/index.js:92-96). -/
def computeWindowEnd (tz : Zone) (now : Instant) : Instant :=
  endOfDay tz (addOneYear tz now)

/-- The rrule library's `rule.between(after, before)` with the default
`inc = false`: of the instants the rule generates from `dtstart`, exactly
those strictly between the bounds are kept (the library shrinks the range by
one millisecond on each side before iterating, so a generated instant equal
to either bound is dropped). -/
def RRule.between (rule : ParsedRule) (dtstart after before : Instant) : List Instant :=
  (rule.genDates dtstart).filter (fun d => decide (after < d ∧ d < before))

/-- Embeds `expandRecurringEvent(event, start, end)` (src/index.js:51-70): a
non-recurring event is returned as its own single occurrence, unconditionally;
a recurring one is re-parsed (`RRule.parseString`, which may throw), anchored
at the event's own start (`rruleOptions.dtstart = event.start`), and every
generated instant kept by `rule.between(start, end)` yields a copy of the
event whose start is that instant and whose end is that instant plus the
template's `end - start` millisecond duration. -/
def expandRecurringEvent (event : RawEvent) (start «end» : Instant) :
    Except RecurrenceRuleError (List RawEvent) :=
  match event.rrule with
  | none => .ok [event]
  | some parseResult =>
    match parseResult with
    | .error e => .error e
    | .ok rule =>
      let dates := RRule.between rule event.start start «end»
      let duration := event.«end» - event.start
      .ok (dates.map (fun date =>
        { event with start := date, «end» := date + duration }))

/-- Embeds `adjustDate(date, timezone)` (src/index.js:46-48), i.e.
`moment.tz(date, timezone).toDate()`.  The argument is a JS `Date`, an
unambiguous absolute instant, so moment-timezone keeps the instant and uses
the zone only for display: the returned instant equals the input. -/
def adjustDate (date : Instant) (timezone : Zone) : Instant :=
  date

/-- Modelled from the spec: the TimezoneNormalizer described in §4.2
reinterprets a naive date/time value in a zone to produce an absolute
instant.  In the fixed-offset model, reading a clock value as local time in
a zone of offset `tz` yields the instant `naive - tz`.  This definition
follows the spec's words and exists only to be compared with `adjustDate`,
the embedding of what the code actually does. -/
def specAdjustDate (naive : Instant) (tz : Zone) : Instant :=
  naive - tz

/-- The body of the `expandedEvents.forEach` loop (src/index.js:105-121):
each field's instant goes through `adjustDate` with that field's own zone if
the original event carries one (`event.start.tz || calendarTimezone`,
`event.end.tz || calendarTimezone`), and `cal.createEvent` receives the
adjusted instants plus the summary/description/location of the expanded
event. -/
def normalizeOccurrence (cfg : Config) (event expandedEvent : RawEvent) : Occurrence :=
  { start := adjustDate expandedEvent.start (event.startTz.getD cfg.calendarTimezone)
    «end» := adjustDate expandedEvent.«end» (event.endTz.getD cfg.calendarTimezone)
    summary := expandedEvent.summary
    description := expandedEvent.description
    location := expandedEvent.location }

/-- One iteration of the event loop (src/index.js:102-123): only `VEVENT`
components are processed; the event is expanded and each expanded record is
normalized into an output occurrence.  A thrown `RecurrenceRuleError`
propagates. -/
def processEvent (cfg : Config) (start «end» : Instant) (event : RawEvent) :
    Except RecurrenceRuleError (List Occurrence) :=
  if event.type = "VEVENT" then
    match expandRecurringEvent event start «end» with
    | .error e => .error e
    | .ok expandedEvents =>
      .ok (expandedEvents.map (fun expandedEvent => normalizeOccurrence cfg event expandedEvent))
  else
    .ok []

/-- The whole `forEach` over the flattened event list (src/index.js:99-124):
events are processed in order, their occurrences appended in order, and the
first thrown error aborts the loop. -/
def processEvents (cfg : Config) (start «end» : Instant) :
    List RawEvent → Except RecurrenceRuleError (List Occurrence)
  | [] => .ok []
  | event :: rest =>
    match processEvent cfg start «end» event with
    | .error e => .error e
    | .ok occs =>
      match processEvents cfg start «end» rest with
      | .error e => .error e
      | .ok restOccs => .ok (occs ++ restOccs)

/-- The per-source view of the same processing: each source's event list is
processed on its own (with one shared window), yielding one occurrence list
per source.  This is the shape in which the merge claims are stated; it is
related to `processEvents` over the flattened list by
`processEvents_flatten_eq`. -/
def perSourceOccurrences (cfg : Config) (start «end» : Instant) :
    List (List RawEvent) → Except RecurrenceRuleError (List (List Occurrence))
  | [] => .ok []
  | source :: rest =>
    match processEvents cfg start «end» source with
    | .error e => .error e
    | .ok occs =>
      match perSourceOccurrences cfg start «end» rest with
      | .error e => .error e
      | .ok restLists => .ok (occs :: restLists)

/-- Embeds `mergeCalendars` (src/index.js:81-127) restricted to its in-memory core:
the per-source parsed event lists are flattened in source order, the window
is computed once from the invocation instant `now`, every `VEVENT` is
expanded and normalized, and the occurrences fill a fresh calendar carrying
the configured name.  Any thrown error discards the partially built
calendar. -/
def mergeCalendars (cfg : Config) (now : Instant)
    (calendarEventsArray : List (List RawEvent)) :
    Except RecurrenceRuleError MergedCalendar :=
  let start := computeWindowStart cfg.calendarTimezone now
  let «end» := computeWindowEnd cfg.calendarTimezone now
  match processEvents cfg start «end» calendarEventsArray.flatten with
  | .error e => .error e
  | .ok occs => .ok { name := cfg.calendarName, occurrences := occs }

/-- Character class `[a-z0-9]` of the slug regexes. -/
def isSafeChar (c : Char) : Bool :=
  ('a' ≤ c && c ≤ 'z') || ('0' ≤ c && c ≤ '9')

/-- Global replace of `[^a-z0-9]+` by a single hyphen: the flag records
whether the scanner is inside an unsafe run (in which case further unsafe
characters extend the run already replaced by one hyphen). -/
def collapseAux : Bool → List Char → List Char
  | _, [] => []
  | inRun, c :: cs =>
    if isSafeChar c then c :: collapseAux false cs
    else if inRun then collapseAux inRun cs
    else '-' :: collapseAux true cs

/-- Embeds `str.replace(/[^a-z0-9]+/g, "-")`: every maximal run of characters
outside `[a-z0-9]` becomes one hyphen. -/
def collapseUnsafeRuns (l : List Char) : List Char :=
  collapseAux false l

/-- Embeds `str.replace(/^-+|-+$/g, "")`: strip leading and trailing hyphen runs. -/
def trimHyphens (l : List Char) : List Char :=
  (((l.dropWhile (fun c => c == '-')).reverse.dropWhile (fun c => c == '-'))).reverse

/-- Embeds `createUrlSafeString` (src/index.js:73-78): lower-case, replace each
maximal run of non-`[a-z0-9]` characters by one hyphen, strip hyphens at the
ends.  `String.toLowerCase` is modelled by the ASCII `Char.toLower` (the
configured calendar name is ASCII). -/
def createUrlSafeString (str : String) : String :=
  String.mk (trimHyphens (collapseUnsafeRuns (str.data.map Char.toLower)))

/-- Embeds `Promise.all` over the fetched sources (src/index.js:83-85): all-or-
nothing join.  Each element of `fetchResults` is the outcome of
`fetchCalendar(url)` — a fetch (HTTP) or ICS-parse failure rejects that
element; one rejected element rejects the whole join. -/
def promiseAll :
    List (Except RunError (List RawEvent)) → Except RunError (List (List RawEvent))
  | [] => .ok []
  | r :: rest =>
    match r with
    | .error e => .error e
    | .ok events =>
      match promiseAll rest with
      | .error e => .error e
      | .ok rests => .ok (events :: rests)

/-- The main IIFE (src/index.js:141-165): fetch and join all sources, merge,
then send one `PutObjectCommand` with the slugged calendar name as key; any
error caught by the surrounding `try`/`catch` means the sink receives no call
at all.  The returned list is the sequence of put-object calls the sink
receives. -/
def runMain (cfg : Config) (bucket : String) (now : Instant)
    (fetchResults : List (Except RunError (List RawEvent))) : List PutCall :=
  match promiseAll fetchResults with
  | .error _ => []
  | .ok calendarEventsArray =>
    match mergeCalendars cfg now calendarEventsArray with
    | .error _ => []
    | .ok mergedCalendar =>
      [{ bucket := bucket
         key := createUrlSafeString cfg.calendarName ++ ".ics"
         body := mergedCalendar
         acl := "public-read"
         contentType := "text/calendar" }]

/-! Concrete fixtures used by witnesses and counterexamples. -/

/-- The configuration of the script with the zone offset taken as UTC. -/
def cfg₀ : Config :=
  { calendarName := "JohnDoe is EXTRAORDINARILY BUSY", calendarTimezone := 0 }

/-- A rule generating its anchor and the instant one day later. -/
def ruleDaily : ParsedRule :=
  { genDates := fun d => [d, d + msPerDay] }

/-- A non-recurring one-hour event starting at the epoch. -/
def evNR : RawEvent :=
  { uid := "a1", type := "VEVENT", summary := "A", description := "", location := ""
    start := 0, «end» := 3600000, rrule := none, startTz := none, endTz := none }

/-- A recurring one-hour event anchored at the epoch, with rule `ruleDaily`. -/
def evRec : RawEvent :=
  { uid := "b1", type := "VEVENT", summary := "B", description := "", location := ""
    start := 0, «end» := 3600000, rrule := some (.ok ruleDaily)
    startTz := none, endTz := none }

/-- A degenerate event whose end equals its start. -/
def evZero : RawEvent :=
  { uid := "z1", type := "VEVENT", summary := "Z", description := "", location := ""
    start := 0, «end» := 0, rrule := none, startTz := none, endTz := none }

/-- A non-recurring event whose start carries the zone UTC+1. -/
def evTzd : RawEvent :=
  { evNR with startTz := some 3600000 }

/-- The single expanded record `expandRecurringEvent` produces for `evRec`
over the window `(0, 200000000)`. -/
def occRecRaw : RawEvent :=
  { evRec with start := 86400000, «end» := 90000000 }

/-- The occurrence the pipeline emits for `evNR`. -/
def occNR : Occurrence :=
  { start := 0, «end» := 3600000, summary := "A", description := "", location := "" }

/-- The occurrence the pipeline emits for `evRec` under the run window of
`now = 0` in UTC. -/
def occRec : Occurrence :=
  { start := 86400000, «end» := 90000000, summary := "B", description := "", location := "" }

/-- The occurrence the pipeline emits for `evZero`. -/
def occZero : Occurrence :=
  { start := 0, «end» := 0, summary := "Z", description := "", location := "" }

/-- Two one-event sources, the shape of the script's two calendar URLs. -/
def sources₀ : List (List RawEvent) :=
  [[evNR], [evRec]]

/-- The per-source occurrence lists of `sources₀` under the run window of
`now = 0` in UTC. -/
def L₀ : List (List Occurrence) :=
  [[occNR], [occRec]]

/-- The put-object call a successful run over one empty source produces. -/
def pc₀ : PutCall :=
  { bucket := "bkt"
    key := "johndoe-is-extraordinarily-busy.ics"
    body := { name := cfg₀.calendarName, occurrences := [] }
    acl := "public-read"
    contentType := "text/calendar" }

/-! Sanity checks of the civil-calendar model. -/

/-- Day 0 is 1970-01-01. -/
theorem civilFromDays_epoch : civilFromDays 0 = (1970, 1, 1) := by decide

/-- 1971-01-01 is day 365 (1970 is not a leap year). -/
theorem daysFromCivil_1971 : daysFromCivil 1971 1 1 = 365 := by decide

/-- One year after the epoch day is day 365. -/
theorem addOneYearDay_epoch : addOneYearDay 0 = 365 := by decide

/-- Feb 29 2024 plus one year clamps to Feb 28 2025. -/
theorem addOneYearDay_leap :
    addOneYearDay (daysFromCivil 2024 2 29) = daysFromCivil 2025 2 28 := by decide

/-! Helper lemmas about the event loop. -/

/-- Processing an appended event list processes the two halves in sequence,
with the first error aborting. -/
theorem processEvents_append (cfg : Config) (s e : Instant) (l₁ l₂ : List RawEvent) :
    processEvents cfg s e (l₁ ++ l₂) =
      match processEvents cfg s e l₁ with
      | .error er => .error er
      | .ok a =>
        match processEvents cfg s e l₂ with
        | .error er => .error er
        | .ok b => .ok (a ++ b) := by
  induction l₁ with
  | nil =>
    simp only [List.nil_append, processEvents]
    cases processEvents cfg s e l₂ with
    | error er => rfl
    | ok b => simp
  | cons ev rest ih =>
    simp only [List.cons_append, processEvents]
    cases processEvent cfg s e ev with
    | error er => rfl
    | ok occs =>
      rw [show rest.append l₂ = rest ++ l₂ from rfl, ih]
      cases processEvents cfg s e rest with
      | error er => rfl
      | ok a =>
        cases processEvents cfg s e l₂ with
        | error er => rfl
        | ok b => simp

/-- Processing the flattened event list is the flattening of the per-source
occurrence lists. -/
theorem processEvents_flatten_eq (cfg : Config) (s e : Instant)
    (sources : List (List RawEvent)) :
    processEvents cfg s e sources.flatten =
      Except.map List.flatten (perSourceOccurrences cfg s e sources) := by
  induction sources with
  | nil => rfl
  | cons src rest ih =>
    rw [List.flatten_cons, processEvents_append]
    simp only [perSourceOccurrences]
    cases processEvents cfg s e src with
    | error er => rfl
    | ok occs =>
      rw [ih]
      cases perSourceOccurrences cfg s e rest with
      | error er => rfl
      | ok L => simp [Except.map]

/-! Claim C2: a non-recurring event yields exactly one occurrence, its own,
unconditionally. -/

/-- C2: for every RawEvent without a recurrence rule and for every window,
`expandRecurringEvent` returns exactly one occurrence whose start and end are
the event's own, regardless of whether that interval intersects the window
(the window bounds are not consulted at all on this path). -/
theorem expandRecurringEvent_nonrecurring (event : RawEvent) (start «end» : Instant)
    (h : event.rrule = none) :
    expandRecurringEvent event start «end» = Except.ok [event] ∧
    Except.map (List.map (fun o => (o.start, o.«end»)))
        (expandRecurringEvent event start «end»)
      = Except.ok [(event.start, event.«end»)] := by
  constructor <;> simp [expandRecurringEvent, h, Except.map]

/-- Witness for C2: the concrete non-recurring event `evNR` starts at 0, far
outside the window `(1000, 2000)`, and is still emitted exactly once,
unchanged. -/
theorem expandRecurringEvent_nonrecurring_witness :
    expandRecurringEvent evNR 1000 2000 = Except.ok [evNR] ∧
    Except.map (List.map (fun o => (o.start, o.«end»)))
        (expandRecurringEvent evNR 1000 2000)
      = Except.ok [(evNR.start, evNR.«end»)] :=
  expandRecurringEvent_nonrecurring evNR 1000 2000 rfl

/-! Claim C1: which rule-generated instants are materialized. -/

/-- C1 (amended): for a recurring event whose rule text parses, the emitted
occurrences' starts are exactly the instants the rule generates from the
anchor `event.start`, restricted to the open interval
`(window.start, window.end)` — one occurrence per such instant, in
generation order.  A generated instant equal to `window.start` (or to
`window.end`) is excluded, because `rule.between` is exclusive at both
bounds by default. -/
theorem expandRecurringEvent_open_interval_starts (event : RawEvent)
    (start «end» : Instant) (rule : ParsedRule)
    (h : event.rrule = some (Except.ok rule)) :
    Except.map (List.map RawEvent.start) (expandRecurringEvent event start «end»)
      = Except.ok ((rule.genDates event.start).filter
          (fun d => decide (start < d ∧ d < «end»))) := by
  simp only [expandRecurringEvent, h, RRule.between, Except.map, List.map_map]
  congr 1
  apply List.map_id'' -- map of projection over the built records is the identity
  intro d
  rfl

/-- Witness for C1: the concrete recurring event `evRec` (anchor 0, rule
generating 0 and 86400000) over the window `(0, 200000000)`. -/
theorem expandRecurringEvent_open_interval_starts_witness :
    Except.map (List.map RawEvent.start) (expandRecurringEvent evRec 0 200000000)
      = Except.ok ((ruleDaily.genDates evRec.start).filter
          (fun d => decide ((0 : Instant) < d ∧ d < 200000000))) :=
  expandRecurringEvent_open_interval_starts evRec 0 200000000 ruleDaily rfl

/-- Counterexample to C1 as stated: the rule of `evRec` generates the
instant 0, which lies in the half-open window `[0, 200000000)` (it equals
the window start), yet the expansion emits no occurrence for it: only the
instant 86400000 is materialized.  So the materialized set is not
`[window.start, window.end)`. -/
theorem expandRecurringEvent_boundary_counterexample :
    (0 : Instant) ∈ ruleDaily.genDates evRec.start ∧
    ((ruleDaily.genDates evRec.start).filter
        (fun d => decide ((0 : Instant) ≤ d ∧ d < 200000000))).length = 2 ∧
    Except.map (List.map RawEvent.start) (expandRecurringEvent evRec 0 200000000)
      = Except.ok [86400000] := by
  refine ⟨by decide, by decide, rfl⟩

/-! Claim C10: expansion changes only start and end. -/

/-- C10: every record emitted for a recurring event agrees with the template
on every field other than `start` and `end` (the spread `{...event}` copies
them), and the normalized occurrence built from it carries the template's
summary, description and location. -/
theorem expandRecurringEvent_frame (cfg : Config) (start «end» : Instant)
    (event : RawEvent) (rule : ParsedRule) (occs : List RawEvent) (o : RawEvent)
    (hr : event.rrule = some (Except.ok rule))
    (hx : expandRecurringEvent event start «end» = Except.ok occs)
    (ho : o ∈ occs) :
    o.uid = event.uid ∧ o.type = event.type ∧ o.summary = event.summary ∧
    o.description = event.description ∧ o.location = event.location ∧
    o.rrule = event.rrule ∧ o.startTz = event.startTz ∧ o.endTz = event.endTz ∧
    (normalizeOccurrence cfg event o).summary = event.summary ∧
    (normalizeOccurrence cfg event o).description = event.description ∧
    (normalizeOccurrence cfg event o).location = event.location := by
  simp only [expandRecurringEvent, hr, RRule.between, Except.ok.injEq] at hx
  subst hx
  rcases List.mem_map.mp ho with ⟨d, hd, rfl⟩
  simp [normalizeOccurrence, hr]

/-- Witness for C10: the single record expanded from `evRec` over
`(0, 200000000)` keeps every non-time field of `evRec`. -/
theorem expandRecurringEvent_frame_witness :
    occRecRaw.uid = evRec.uid ∧ occRecRaw.type = evRec.type ∧
    occRecRaw.summary = evRec.summary ∧
    occRecRaw.description = evRec.description ∧
    occRecRaw.location = evRec.location ∧
    occRecRaw.rrule = evRec.rrule ∧ occRecRaw.startTz = evRec.startTz ∧
    occRecRaw.endTz = evRec.endTz ∧
    (normalizeOccurrence cfg₀ evRec occRecRaw).summary = evRec.summary ∧
    (normalizeOccurrence cfg₀ evRec occRecRaw).description = evRec.description ∧
    (normalizeOccurrence cfg₀ evRec occRecRaw).location = evRec.location :=
  expandRecurringEvent_frame cfg₀ 0 200000000 evRec ruleDaily [occRecRaw] occRecRaw
    rfl rfl (List.mem_singleton.mpr rfl)

/-! Claim C3: duration preservation. -/

/-- Every record expanded from an event has the template's exact millisecond
duration: the non-recurring path returns the event itself, and the recurring
path sets `end = start + (template.end - template.start)`. -/
theorem expandRecurringEvent_duration (event : RawEvent) (start «end» : Instant)
    (occs : List RawEvent) (x : RawEvent)
    (hx : expandRecurringEvent event start «end» = Except.ok occs)
    (hm : x ∈ occs) :
    x.«end» - x.start = event.«end» - event.start := by
  unfold expandRecurringEvent at hx
  cases hr : event.rrule with
  | none =>
    rw [hr] at hx
    simp only [Except.ok.injEq] at hx
    subst hx
    rw [List.mem_singleton] at hm
    subst hm
    rfl
  | some parseResult =>
    rw [hr] at hx
    cases parseResult with
    | error e => cases hx
    | ok rule =>
      simp only [Except.ok.injEq] at hx
      subst hx
      rcases List.mem_map.mp hm with ⟨d, hd, rfl⟩
      show d + (event.«end» - event.start) - d = event.«end» - event.start
      ring

/-- C3 (amended): every occurrence the pipeline emits for an event has
exactly the template's `end - start` millisecond duration, and its end
exceeds its start precisely when the template's does.  (The original claim's
unconditional `end > start` fails when the template itself has
`end ≤ start`; the code performs no check — see the counterexample.) -/
theorem processEvent_duration_invariant (cfg : Config) (start «end» : Instant)
    (event : RawEvent) (occs : List Occurrence) (o : Occurrence)
    (hp : processEvent cfg start «end» event = Except.ok occs)
    (ho : o ∈ occs) :
    o.«end» - o.start = event.«end» - event.start ∧
    (o.start < o.«end» ↔ event.start < event.«end») := by
  unfold processEvent at hp
  by_cases ht : event.type = "VEVENT"
  · rw [if_pos ht] at hp
    cases hx : expandRecurringEvent event start «end» with
    | error e => rw [hx] at hp; cases hp
    | ok expanded =>
      rw [hx] at hp
      simp only [Except.ok.injEq] at hp
      subst hp
      rcases List.mem_map.mp ho with ⟨x, hxm, rfl⟩
      have hdur := expandRecurringEvent_duration event start «end» expanded x hx hxm
      have hs : (normalizeOccurrence cfg event x).start = x.start := rfl
      have he : (normalizeOccurrence cfg event x).«end» = x.«end» := rfl
      rw [hs, he]
      refine ⟨hdur, ?_⟩
      constructor <;> intro h2 <;> linarith
  · rw [if_neg ht] at hp
    simp only [Except.ok.injEq] at hp
    subst hp
    cases ho

/-- Witness for C3: the occurrence emitted for the concrete one-hour event
`evNR` has duration 3600000 ms and a start strictly below its end. -/
theorem processEvent_duration_invariant_witness :
    occNR.«end» - occNR.start = evNR.«end» - evNR.start ∧
    (occNR.start < occNR.«end» ↔ evNR.start < evNR.«end») :=
  processEvent_duration_invariant cfg₀ 0 200000000 evNR [occNR] occNR rfl
    (List.mem_singleton.mpr rfl)

/-- Counterexample to C3 as stated: the degenerate event `evZero` has
`end = start`; the pipeline emits one occurrence for it with `end = start`,
so the emitted occurrence violates `end > start`. -/
theorem processEvent_end_gt_start_counterexample :
    processEvent cfg₀ 0 200000000 evZero = Except.ok [occZero] ∧
    ¬ (occZero.start < occZero.«end») :=
  ⟨rfl, by decide⟩

/-! Claim C4: the merge is exactly the ordered concatenation. -/

/-- C4: when every source processes cleanly (the per-source occurrence lists
are `L`), the merged calendar's occurrence sequence is exactly their
concatenation — source order, then event order within a source, then
generation order within an event — and its length is the sum of the
per-source lengths.  No sorting, deduplication or reordering happens. -/
theorem mergeCalendars_concatenation (cfg : Config) (now : Instant)
    (sources : List (List RawEvent)) (L : List (List Occurrence))
    (h : perSourceOccurrences cfg (computeWindowStart cfg.calendarTimezone now)
           (computeWindowEnd cfg.calendarTimezone now) sources = Except.ok L) :
    mergeCalendars cfg now sources
      = Except.ok { name := cfg.calendarName, occurrences := L.flatten } ∧
    L.flatten.length = (L.map List.length).sum := by
  constructor
  · simp only [mergeCalendars]
    rw [processEvents_flatten_eq, h]
    rfl
  · simp [List.length_flatten]

/-- Witness for C4: two one-event sources (one plain, one recurring) merge
into the concatenation of their occurrence lists, of length 1 + 1. -/
theorem mergeCalendars_concatenation_witness :
    mergeCalendars cfg₀ 0 sources₀
      = Except.ok { name := cfg₀.calendarName, occurrences := L₀.flatten } ∧
    L₀.flatten.length = (L₀.map List.length).sum :=
  mergeCalendars_concatenation cfg₀ 0 sources₀ L₀ rfl

/-! Claim C5: per-field timezone resolution. -/

/-- C5 (amended): the zone passed to `adjustDate` is chosen per field — the
event's own `start.tz`/`end.tz` when present, the configured calendar zone
otherwise — but `adjustDate` receives an absolute instant (a JS `Date`) and
`moment.tz` keeps such input's instant, so the produced start and end equal
the expanded record's start and end whatever zones are attached: no
reinterpretation of a naive value takes place. -/
theorem normalizeOccurrence_preserves_instants (cfg : Config)
    (event expandedEvent : RawEvent) (tz₁ tz₂ : Option Zone) :
    (normalizeOccurrence cfg event expandedEvent).start = expandedEvent.start ∧
    (normalizeOccurrence cfg event expandedEvent).«end» = expandedEvent.«end» ∧
    normalizeOccurrence cfg { event with startTz := tz₁, endTz := tz₂ } expandedEvent
      = normalizeOccurrence cfg event expandedEvent :=
  ⟨rfl, rfl, rfl⟩

/-- Counterexample to C5 as stated: `evTzd` carries the zone UTC+1 on its
start while the configured zone is UTC.  Reinterpreting the naive value 0 in
UTC+1 (the spec's described behaviour, `specAdjustDate`) yields −3600000,
but the pipeline emits start 0: the field's zone has no effect on the
produced instant. -/
theorem normalizeOccurrence_reinterpretation_counterexample :
    evTzd.startTz = some 3600000 ∧
    cfg₀.calendarTimezone = 0 ∧
    (normalizeOccurrence cfg₀ evTzd evTzd).start = 0 ∧
    specAdjustDate evTzd.start 3600000 = -3600000 ∧
    (normalizeOccurrence cfg₀ evTzd evTzd).start ≠ specAdjustDate evTzd.start 3600000 :=
  ⟨rfl, rfl, rfl, rfl, by decide⟩

/-! Claim C6: any stage failure publishes nothing. -/

/-- If some source's fetch/parse outcome is an error, the all-or-nothing
join rejects (with the first error in order). -/
theorem promiseAll_error_of_mem (fetchResults : List (Except RunError (List RawEvent)))
    (e : RunError) (h : Except.error e ∈ fetchResults) :
    ∃ eFirst, promiseAll fetchResults = Except.error eFirst := by
  induction fetchResults with
  | nil => cases h
  | cons r rest ih =>
    cases h with
    | head => exact ⟨e, rfl⟩
    | tail _ hmem =>
      cases r with
      | error eHead => exact ⟨eHead, rfl⟩
      | ok events =>
        rcases ih hmem with ⟨eFirst, hFirst⟩
        exact ⟨eFirst, by simp [promiseAll, hFirst]⟩

/-- If some VEVENT in the list carries an unparseable rule, processing the
list throws. -/
theorem processEvents_error_of_mem (cfg : Config) (s e : Instant)
    (events : List RawEvent) (ev : RawEvent) (er : RecurrenceRuleError)
    (hm : ev ∈ events) (ht : ev.type = "VEVENT")
    (hr : ev.rrule = some (Except.error er)) :
    ∃ eThrown, processEvents cfg s e events = Except.error eThrown := by
  induction events with
  | nil => cases hm
  | cons a rest ih =>
    cases hm with
    | head =>
      exact ⟨er, by simp [processEvents, processEvent, ht, expandRecurringEvent, hr]⟩
    | tail _ hmem =>
      cases hp : processEvent cfg s e a with
      | error eHead => exact ⟨eHead, by simp [processEvents, hp]⟩
      | ok occs =>
        rcases ih hmem with ⟨eThrown, hThrown⟩
        exact ⟨eThrown, by simp [processEvents, hp, hThrown]⟩

/-- C6: if any source fetch or ICS parse fails, or any VEVENT's recurrence
rule text is unparseable, the run publishes nothing: the sink receives zero
put-object calls (the merged calendar built so far is discarded by the
`catch`). -/
theorem runMain_failure_publishes_nothing (cfg : Config) (bucket : String)
    (now : Instant) (fetchResults : List (Except RunError (List RawEvent)))
    (h : (∃ e, Except.error e ∈ fetchResults) ∨
         (∀ evss, promiseAll fetchResults = Except.ok evss →
            ∃ ev, ev ∈ evss.flatten ∧ ev.type = "VEVENT" ∧
              ∃ er, ev.rrule = some (Except.error er))) :
    runMain cfg bucket now fetchResults = [] := by
  cases h with
  | inl hfetch =>
    rcases hfetch with ⟨e, hmem⟩
    rcases promiseAll_error_of_mem fetchResults e hmem with ⟨eFirst, hFirst⟩
    simp [runMain, hFirst]
  | inr hbad =>
    cases hp : promiseAll fetchResults with
    | error e => simp [runMain, hp]
    | ok evss =>
      rcases hbad evss hp with ⟨ev, hmem, ht, er, hr⟩
      rcases processEvents_error_of_mem cfg
          (computeWindowStart cfg.calendarTimezone now)
          (computeWindowEnd cfg.calendarTimezone now)
          evss.flatten ev er hmem ht hr with ⟨eThrown, hThrown⟩
      simp [runMain, hp, mergeCalendars, hThrown]

/-- Witness for C6: a run whose only source fetch fails publishes nothing. -/
theorem runMain_failure_publishes_nothing_witness :
    runMain cfg₀ ("bkt") 0 [Except.error (RunError.fetchError ("u"))] = [] :=
  runMain_failure_publishes_nothing cfg₀ ("bkt") 0 _
    (Or.inl ⟨RunError.fetchError ("u"), by simp⟩)

/-! Claim C7: the window is computed once and spans one year from the start
of the current day. -/

/-- Decomposition of the local-day computation: a day index paired with a
millisecond-of-day recomposes to that day index. -/
theorem localDay_mul_add (tz X M : Int) (h0 : 0 ≤ M) (h1 : M < msPerDay) :
    localDay tz (X * msPerDay + M - tz) = X := by
  unfold localDay
  have harg : X * msPerDay + M - tz + tz = M + X * msPerDay := by ring
  rw [harg, Int.add_mul_ediv_right _ _ (by decide : msPerDay ≠ 0),
    Int.ediv_eq_zero_of_lt h0 h1]
  ring

/-- The start of the local day lies on the same local day. -/
theorem localDay_startOfDay (tz : Zone) (t : Instant) :
    localDay tz (startOfDay tz t) = localDay tz t := by
  show localDay tz (localDay tz t * msPerDay - tz) = localDay tz t
  unfold localDay
  have harg : (t + tz) / msPerDay * msPerDay - tz + tz = (t + tz) / msPerDay * msPerDay := by
    ring
  rw [harg, Int.mul_ediv_cancel _ (by decide : msPerDay ≠ 0)]

/-- The start of the local day has millisecond-of-day zero. -/
theorem msOfDay_startOfDay (tz : Zone) (t : Instant) :
    msOfDay tz (startOfDay tz t) = 0 := by
  show msOfDay tz (localDay tz t * msPerDay - tz) = 0
  unfold msOfDay
  have harg : localDay tz t * msPerDay - tz + tz = localDay tz t * msPerDay := by ring
  rw [harg]
  exact Int.mul_emod_left _ _

/-- Adding one year moves the local day by the civil-calendar year
successor, independently of the time-of-day. -/
theorem localDay_addOneYear (tz : Zone) (t : Instant) :
    localDay tz (addOneYear tz t) = addOneYearDay (localDay tz t) := by
  unfold addOneYear
  exact localDay_mul_add tz _ _
    (Int.emod_nonneg _ (by decide : msPerDay ≠ 0))
    (Int.emod_lt_of_pos _ (by decide : (0 : Int) < msPerDay))

/-- The window end computed from `now` equals the end of the day one
calendar year after the window start. -/
theorem computeWindowEnd_eq_endOfDay_addOneYear_start (tz : Zone) (now : Instant) :
    computeWindowEnd tz now = endOfDay tz (addOneYear tz (computeWindowStart tz now)) := by
  have h : localDay tz (addOneYear tz now)
      = localDay tz (addOneYear tz (startOfDay tz now)) := by
    rw [localDay_addOneYear, localDay_addOneYear, localDay_startOfDay]
  have hs : startOfDay tz (addOneYear tz now)
      = startOfDay tz (addOneYear tz (startOfDay tz now)) := by
    show localDay tz (addOneYear tz now) * msPerDay - tz
        = localDay tz (addOneYear tz (startOfDay tz now)) * msPerDay - tz
    rw [h]
  show startOfDay tz (addOneYear tz now) + msPerDay - 1
      = startOfDay tz (addOneYear tz (startOfDay tz now)) + msPerDay - 1
  rw [hs]

/-- C7: the core output is a function of one window pair, computed once from
the invocation instant as `[start of the current day, end of the day one
calendar year later]` in the configured zone, and that same pair is applied
to every event of every source (the per-source decomposition receives the
identical bounds). -/
theorem mergeCalendars_window_computed_once (cfg : Config) (now : Instant)
    (sources : List (List RawEvent)) :
    mergeCalendars cfg now sources
      = Except.map (fun L => { name := cfg.calendarName, occurrences := L.flatten })
          (perSourceOccurrences cfg (computeWindowStart cfg.calendarTimezone now)
            (computeWindowEnd cfg.calendarTimezone now) sources) ∧
    computeWindowStart cfg.calendarTimezone now
      = startOfDay cfg.calendarTimezone now ∧
    computeWindowEnd cfg.calendarTimezone now
      = endOfDay cfg.calendarTimezone
          (addOneYear cfg.calendarTimezone (computeWindowStart cfg.calendarTimezone now)) := by
  refine ⟨?_, rfl, computeWindowEnd_eq_endOfDay_addOneYear_start _ _⟩
  simp only [mergeCalendars]
  rw [processEvents_flatten_eq]
  cases perSourceOccurrences cfg (computeWindowStart cfg.calendarTimezone now)
      (computeWindowEnd cfg.calendarTimezone now) sources with
  | error e => rfl
  | ok L => rfl

/-! Claim C9: determinism of the core pipeline. -/

/-- C9: the merged output is a pure function of the window and the parsed
per-source events: two invocations whose instants yield the same window
bounds produce identical output on the same sources.  (In particular a rerun
within the same civil day reproduces the output exactly.) -/
theorem mergeCalendars_deterministic (cfg : Config) (now₁ now₂ : Instant)
    (sources : List (List RawEvent))
    (h₁ : computeWindowStart cfg.calendarTimezone now₁
            = computeWindowStart cfg.calendarTimezone now₂)
    (h₂ : computeWindowEnd cfg.calendarTimezone now₁
            = computeWindowEnd cfg.calendarTimezone now₂) :
    mergeCalendars cfg now₁ sources = mergeCalendars cfg now₂ sources := by
  simp only [mergeCalendars]
  rw [h₁, h₂]

/-- Witness for C9: two invocation instants one second apart on the same
day produce the identical merged calendar on the two-source fixture. -/
theorem mergeCalendars_deterministic_witness :
    mergeCalendars cfg₀ 0 sources₀ = mergeCalendars cfg₀ 1000 sources₀ :=
  mergeCalendars_deterministic cfg₀ 0 1000 sources₀ (by decide) (by decide)

/-! Claim C8: the slug function and the published key. -/

/-- Dropping a prefix keeps membership. -/
theorem mem_of_dropWhile (p : Char → Bool) (c : Char) :
    ∀ l : List Char, c ∈ l.dropWhile p → c ∈ l := by
  intro l
  induction l with
  | nil => intro h; exact h
  | cons b t ih =>
    intro h
    rw [List.dropWhile_cons] at h
    by_cases hb : p b
    · rw [if_pos hb] at h; exact List.mem_cons_of_mem b (ih h)
    · rw [if_neg hb] at h; exact h

/-- The head surviving a `dropWhile` fails the dropped predicate. -/
theorem head?_dropWhile_not (p : Char → Bool) :
    ∀ (l : List Char) (a : Char), (l.dropWhile p).head? = some a → p a = false := by
  intro l
  induction l with
  | nil => intro a h; cases h
  | cons b t ih =>
    intro a h
    rw [List.dropWhile_cons] at h
    by_cases hb : p b
    · rw [if_pos hb] at h; exact ih a h
    · rw [if_neg hb] at h
      simp only [List.head?_cons, Option.some.injEq] at h
      subst h
      exact Bool.eq_false_iff.mpr hb

/-- A `dropWhile` either empties the list or keeps its last element. -/
theorem getLast?_dropWhile (p : Char → Bool) :
    ∀ l : List Char, l.dropWhile p = [] ∨
      (l.dropWhile p ≠ [] ∧ (l.dropWhile p).getLast? = l.getLast?) := by
  intro l
  induction l with
  | nil => exact Or.inl rfl
  | cons b t ih =>
    rw [List.dropWhile_cons]
    by_cases hb : p b
    · rw [if_pos hb]
      cases ih with
      | inl h => exact Or.inl h
      | inr h =>
        rcases h with ⟨hne, heq⟩
        refine Or.inr ⟨hne, ?_⟩
        rw [heq]
        cases t with
        | nil => simp [List.dropWhile] at hne
        | cons c t' => exact (List.getLast?_cons_cons).symm
    · rw [if_neg hb]
      exact Or.inr ⟨by simp, rfl⟩

/-- Every character the run-collapsing pass emits is in `[a-z0-9]` or is the
replacement hyphen. -/
theorem mem_collapseAux (c : Char) :
    ∀ (l : List Char) (b : Bool), c ∈ collapseAux b l → isSafeChar c = true ∨ c = '-' := by
  intro l
  induction l with
  | nil => intro b h; cases h
  | cons a t ih =>
    intro b h
    unfold collapseAux at h
    by_cases hs : isSafeChar a
    · rw [if_pos hs] at h
      cases h with
      | head => exact Or.inl hs
      | tail _ hm => exact ih false hm
    · rw [if_neg hs] at h
      cases b with
      | true =>
        simp only [if_true] at h
        exact ih true h
      | false =>
        simp only [Bool.false_eq_true, if_false] at h
        cases h with
        | head => exact Or.inr rfl
        | tail _ hm => exact ih true hm

/-- Hyphen trimming keeps membership. -/
theorem mem_trimHyphens (c : Char) (l : List Char) (h : c ∈ trimHyphens l) : c ∈ l := by
  unfold trimHyphens at h
  rw [List.mem_reverse] at h
  have h1 := mem_of_dropWhile (fun x => x == '-') c _ h
  rw [List.mem_reverse] at h1
  exact mem_of_dropWhile (fun x => x == '-') c _ h1

/-- C8: the slug of the configured name — lower-cased, each maximal run of
non-`[a-z0-9]` characters replaced by a single hyphen, edge hyphens
stripped — on the spec's two examples; every published object key is
`slug(calendar name) + ".ics"`; and, for every input string, every output
character is in `[a-z0-9]` or a hyphen and the output neither starts nor
ends with a hyphen. -/
theorem createUrlSafeString_slug_spec :
    createUrlSafeString ("JohnDoe is EXTRAORDINARILY BUSY") = "johndoe-is-extraordinarily-busy" ∧
    createUrlSafeString ("A  B!!C") = "a-b-c" ∧
    (∀ (cfg : Config) (bucket : String) (now : Instant)
       (fetchResults : List (Except RunError (List RawEvent))) (pc : PutCall),
       pc ∈ runMain cfg bucket now fetchResults →
       pc.key = createUrlSafeString cfg.calendarName ++ ".ics") ∧
    (∀ (s : String) (c : Char), c ∈ (createUrlSafeString s).data →
       isSafeChar c = true ∨ c = '-') ∧
    (∀ s : String, (createUrlSafeString s).data.head? ≠ some '-' ∧
       (createUrlSafeString s).data.getLast? ≠ some '-') := by
  refine ⟨by decide, by decide, ?_, ?_, ?_⟩
  · intro cfg bucket now fetchResults pc hpc
    unfold runMain at hpc
    cases hp : promiseAll fetchResults with
    | error e => rw [hp] at hpc; simp at hpc
    | ok evss =>
      rw [hp] at hpc
      simp only at hpc
      cases hm : mergeCalendars cfg now evss with
      | error e => rw [hm] at hpc; simp at hpc
      | ok cal =>
        rw [hm] at hpc
        simp only [List.mem_singleton] at hpc
        subst hpc
        rfl
  · intro s c hc
    have hc2 : c ∈ trimHyphens (collapseUnsafeRuns (s.data.map Char.toLower)) := hc
    exact mem_collapseAux c _ false (mem_trimHyphens c _ hc2)
  · intro s
    constructor
    · show (trimHyphens (collapseUnsafeRuns (s.data.map Char.toLower))).head? ≠ some '-'
      generalize collapseUnsafeRuns (s.data.map Char.toLower) = L
      unfold trimHyphens
      rw [List.head?_reverse]
      cases getLast?_dropWhile (fun x => x == '-')
          ((L.dropWhile (fun x => x == '-')).reverse) with
      | inl h => rw [h]; simp
      | inr h =>
        rcases h with ⟨hne, heq⟩
        rw [heq, List.getLast?_reverse]
        intro hcontra
        have hpa := head?_dropWhile_not (fun x => x == '-') L '-' hcontra
        simp at hpa
    · show (trimHyphens (collapseUnsafeRuns (s.data.map Char.toLower))).getLast? ≠ some '-'
      generalize collapseUnsafeRuns (s.data.map Char.toLower) = L
      unfold trimHyphens
      rw [List.getLast?_reverse]
      intro hcontra
      have hpa := head?_dropWhile_not (fun x => x == '-')
          ((L.dropWhile (fun x => x == '-')).reverse) '-' hcontra
      simp at hpa

/-- Witness for C8: the put call of a successful run over one empty source
carries exactly the slugged configured name plus the `.ics` suffix. -/
theorem createUrlSafeString_slug_spec_witness :
    pc₀.key = createUrlSafeString cfg₀.calendarName ++ ".ics" :=
  createUrlSafeString_slug_spec.2.2.1 cfg₀ ("bkt") 0 [Except.ok []] pc₀ (by decide)
